import Mathlib

/-!
# Verification of the tabular aggregation & statistics engine

A shallow embedding of the client-side data-transformation layer of the
dashboard: column classification, categorical aggregation with top-N
collapse, linear-regression statistics, moving-average smoothing, index
and min-max normalization, and CSV export.  JS numbers are modelled
exactly as rationals extended with the special values `NaN`, `Infinity`
and `-Infinity`; floating-point rounding and negative zero are not
modelled, so all finite arithmetic is exact.
-/

namespace Suchet

/-- A JS number: a finite rational or one of the special values. -/
inductive JsNum where
  | fin (q : ℚ)
  | nan
  | inf
  | ninf
deriving DecidableEq, Repr

/-- JS `isFinite` on a number (the source's `isFiniteNum` up to the
`typeof` check, which the type system discharges). -/
def JsNum.isFinite : JsNum → Bool
  | .fin _ => true
  | _ => false

/-- The rational value of a finite JS number (`0` on the special values;
only ever used where finiteness is already known). -/
def JsNum.toQ : JsNum → ℚ
  | .fin q => q
  | _ => 0

/-- JS truthiness of a number: `0` and `NaN` are falsy. -/
def JsNum.truthy : JsNum → Bool
  | .fin q => decide (q ≠ 0)
  | .nan => false
  | .inf => true
  | .ninf => true

/-- JS `a || b` on numbers. -/
def jsOrNum (a b : JsNum) : JsNum := if a.truthy then a else b

/-- JS subtraction on numbers. -/
def jsSub : JsNum → JsNum → JsNum
  | .nan, _ => .nan
  | _, .nan => .nan
  | .fin a, .fin b => .fin (a - b)
  | .fin _, .inf => .ninf
  | .fin _, .ninf => .inf
  | .inf, .fin _ => .inf
  | .inf, .inf => .nan
  | .inf, .ninf => .inf
  | .ninf, .fin _ => .ninf
  | .ninf, .inf => .ninf
  | .ninf, .ninf => .nan

/-- JS multiplication on numbers (negative zero not modelled). -/
def jsMul : JsNum → JsNum → JsNum
  | .nan, _ => .nan
  | _, .nan => .nan
  | .fin a, .fin b => .fin (a * b)
  | .fin a, .inf => if a = 0 then .nan else if 0 < a then .inf else .ninf
  | .fin a, .ninf => if a = 0 then .nan else if 0 < a then .ninf else .inf
  | .inf, .fin b => if b = 0 then .nan else if 0 < b then .inf else .ninf
  | .ninf, .fin b => if b = 0 then .nan else if 0 < b then .ninf else .inf
  | .inf, .inf => .inf
  | .inf, .ninf => .ninf
  | .ninf, .inf => .ninf
  | .ninf, .ninf => .inf

/-- JS division on numbers (negative zero not modelled: division by the
literal `0` behaves as division by `+0`). -/
def jsDiv : JsNum → JsNum → JsNum
  | .nan, _ => .nan
  | _, .nan => .nan
  | .fin a, .fin b =>
      if b = 0 then (if a = 0 then .nan else if 0 < a then .inf else .ninf)
      else .fin (a / b)
  | .fin _, .inf => .fin 0
  | .fin _, .ninf => .fin 0
  | .inf, .fin b => if 0 ≤ b then .inf else .ninf
  | .ninf, .fin b => if 0 ≤ b then .ninf else .inf
  | .inf, .inf => .nan
  | .inf, .ninf => .nan
  | .ninf, .inf => .nan
  | .ninf, .ninf => .nan

/-- JS strict `<` on numbers (`false` whenever either side is `NaN`). -/
def jsLt : JsNum → JsNum → Bool
  | .nan, _ => false
  | _, .nan => false
  | .fin a, .fin b => decide (a < b)
  | .fin _, .inf => true
  | .fin _, .ninf => false
  | .inf, .fin _ => false
  | .ninf, .fin _ => true
  | .inf, .inf => false
  | .ninf, .ninf => false
  | .ninf, .inf => true
  | .inf, .ninf => false

/-- JS `≤` on numbers (`false` whenever either side is `NaN`). -/
def jsLe : JsNum → JsNum → Bool
  | .nan, _ => false
  | _, .nan => false
  | .fin a, .fin b => decide (a ≤ b)
  | .fin _, .inf => true
  | .fin _, .ninf => false
  | .inf, .fin _ => false
  | .ninf, .fin _ => true
  | .inf, .inf => true
  | .ninf, .ninf => true
  | .ninf, .inf => true
  | .inf, .ninf => false

/-! ## String-to-number coercion (`Number(string)`) -/

/-- The value of a non-empty all-digit character list. -/
def natDigits (cs : List Char) : ℕ :=
  cs.foldl (fun a c => a * 10 + (c.toNat - 48)) 0

/-- The mantissa value of integer digits `ip` and fraction digits `frac`;
`none` unless both are digit strings and at least one digit is present
(JS accepts `"5."` and `".5"` but not `"."`). -/
def mantVal? (ip frac : List Char) : Option ℚ :=
  if ip.isEmpty && frac.isEmpty then none
  else if (ip ++ frac).all Char.isDigit then
    some ((natDigits (ip ++ frac) : ℚ) / (10 : ℚ) ^ frac.length)
  else none

/-- The exponent value of the characters following `e`/`E`. -/
def expVal? : List Char → Option ℤ
  | '+' :: ds =>
      if ds.isEmpty || !ds.all Char.isDigit then none
      else some (natDigits ds : ℤ)
  | '-' :: ds =>
      if ds.isEmpty || !ds.all Char.isDigit then none
      else some (-(natDigits ds : ℤ))
  | ds =>
      if ds.isEmpty || !ds.all Char.isDigit then none
      else some (natDigits ds : ℤ)

/-- An unsigned decimal literal, with optional fraction and exponent. -/
def parseUnsignedDec (cs : List Char) : Option ℚ :=
  let mant := cs.takeWhile (fun c => c != 'e' && c != 'E')
  let rest := cs.dropWhile (fun c => c != 'e' && c != 'E')
  let ip := mant.takeWhile (fun c => c != '.')
  let fp := mant.dropWhile (fun c => c != '.')
  let frac? : Option (List Char) :=
    match fp with
    | [] => some []
    | _ :: f => if f.contains '.' then none else some f
  let exp? : Option ℤ :=
    match rest with
    | [] => some 0
    | _ :: es => expVal? es
  match frac? with
  | none => none
  | some frac =>
      match mantVal? ip frac, exp? with
      | some m, some e => some (m * (10 : ℚ) ^ e)
      | _, _ => none

/-- A signed decimal literal. -/
def parseDec : List Char → Option ℚ
  | '+' :: cs => parseUnsignedDec cs
  | '-' :: cs => (parseUnsignedDec cs).map (fun q => -q)
  | cs => parseUnsignedDec cs

/-- Whitespace trimming on both ends (`String.trim`, re-implemented on
the character list so that it reduces in the kernel). -/
def jsTrim (s : String) : String :=
  String.mk
    (((s.data.dropWhile Char.isWhitespace).reverse.dropWhile Char.isWhitespace).reverse)

/-- Models the JS `Number(string)` coercion: whitespace is trimmed, the
empty string is `0`, the `Infinity` literals are the infinities, decimal
literals (optional sign, fraction, exponent) take their exact rational
value, and anything else is `NaN`.  Hexadecimal and other exotic literal
forms are not modelled (no claim below depends on them). -/
def parseNum (s : String) : JsNum :=
  let t := jsTrim s
  if t = "" then .fin 0
  else if t = "Infinity" || t = "+Infinity" then .inf
  else if t = "-Infinity" then .ninf
  else match parseDec t.data with
    | some q => .fin q
    | none => .nan

/-! ## Cells and rows -/

/-- A raw cell value as it occurs in a row object or a derived record:
a string, a number, `null`, or `undefined` (a missing property). -/
inductive Cell where
  | str (s : String)
  | num (n : JsNum)
  | null
  | undefined
deriving DecidableEq, Repr

/-- JS `Number(v)` coercion of a cell. -/
def jsToNumber : Cell → JsNum
  | .str s => parseNum s
  | .num n => n
  | .null => .fin 0
  | .undefined => .nan

/-- Models JS number-to-string for the values arising in the claims:
integers print in decimal, and other rationals fall back to a
`num/den` form (the exact JS float formatting of non-integers is not
modelled; no claim below depends on it). -/
def numToString (q : ℚ) : String :=
  if q.den = 1 then toString q.num else toString q.num ++ "/" ++ toString q.den

/-- JS `String(v)` coercion of a cell. -/
def jsToString : Cell → String
  | .str s => s
  | .num (.fin q) => numToString q
  | .num .nan => "NaN"
  | .num .inf => "Infinity"
  | .num .ninf => "-Infinity"
  | .null => "null"
  | .undefined => "undefined"

/-- A row: a JS object, i.e. an ordered association list from column
name to cell value (later bindings shadow nothing; keys are unique in
data rows, and derived records are built with `objSet`). -/
abbrev Row := List (String × Cell)

/-- JS property read `r[k]`: the binding of `k`, `undefined` when absent. -/
def getCell (r : Row) (k : String) : Cell :=
  match r.find? (fun p => p.1 == k) with
  | some p => p.2
  | none => .undefined

/-- JS property write `r[k] = v`: updates an existing binding in place,
otherwise appends a new one (JS object insertion order). -/
def objSet : Row → String → Cell → Row
  | [], k, v => [(k, v)]
  | p :: t, k, v => if p.1 = k then (k, v) :: t else p :: objSet t k v

/-- The source's `toNum`: `Number(v)` with `NaN` mapped to `NaN` (an
identity on the coercion's result, kept for fidelity). -/
def toNum (v : Cell) : JsNum :=
  let n := jsToNumber v
  if n = .nan then .nan else n

/-- The source's `safeCat`: `null`, `undefined` and the empty string
coerce to the literal category `"Unknown"`, everything else to its
string coercion. -/
def safeCat (v : Cell) : String :=
  if v = .null || v = .undefined || v = .str "" then "Unknown" else jsToString v

/-- The source's `safeStr` (scatter view): only `null` and `undefined`
coerce to `"Unknown"`. -/
def safeStr (v : Cell) : String :=
  if v = .null || v = .undefined then "Unknown" else jsToString v

/-! ## CSV field serialization (`csvSafe`) -/

/-- The regex test `/[",\n]/.test(v)`: does the field contain a comma, a
double quote, or a newline? -/
def needsQuote (s : String) : Bool :=
  s.data.any (fun c => c = ',' || c = '"' || c = '\n')

/-- `v.replace(/"/g, '""')`: double every double quote. -/
def escQuotes : List Char → List Char
  | [] => []
  | c :: t => if c = '"' then '"' :: '"' :: escQuotes t else c :: escQuotes t

/-- The source's `csvSafe`: `null`/`undefined` become the empty string;
a field containing a comma, double quote or newline is wrapped in double
quotes with internal double quotes doubled; all other fields are emitted
verbatim. -/
def csvSafe (c : Cell) : String :=
  let v := if c = .null || c = .undefined then "" else jsToString c
  if needsQuote v then
    String.mk ('"' :: escQuotes v.data ++ ['"'])
  else v

/-- A CSV consumer's un-escaping: each doubled double quote becomes one. -/
def unescQuotes : List Char → List Char
  | [] => []
  | [c] => [c]
  | c1 :: c2 :: t =>
      if c1 = '"' && c2 = '"' then '"' :: unescQuotes t
      else c1 :: unescQuotes (c2 :: t)

/-- A CSV consumer's un-quoting of one serialized field: a field wrapped
in double quotes is stripped and un-escaped, any other field is taken
verbatim. -/
def unquoteField (s : String) : String :=
  if s.data.head? = some '"' ∧ s.data.tail ≠ [] ∧ s.data.tail.getLastD ' ' = '"' then
    String.mk (unescQuotes s.data.tail.dropLast)
  else s

/-! ## Column classification -/

/-- The source's column classifier predicate for one key:
`rows.every((r) => r[k] === "" || !isNaN(Number(r[k])))`. -/
def numericKey (rows : List Row) (k : String) : Bool :=
  rows.all (fun r => getCell r k = .str "" || jsToNumber (getCell r k) ≠ .nan)

/-- The source's `numericCols`: the keys of the first row whose every
value is the empty string or coerces to a non-`NaN` number; empty on an
empty row set. -/
def numericCols (rows : List Row) : List String :=
  match rows with
  | [] => []
  | r0 :: _ => (r0.map Prod.fst).filter (numericKey rows)

/-- The source's `catCols`: the first row's keys that are not numeric. -/
def catCols (rows : List Row) : List String :=
  match rows with
  | [] => []
  | r0 :: _ => (r0.map Prod.fst).filter (fun k => !(numericCols rows).contains k)

/-- The keys of the first row (`Object.keys(rows[0])`). -/
def keysOf (rows : List Row) : List String :=
  match rows with
  | [] => []
  | r0 :: _ => r0.map Prod.fst

/-! ## Aggregation engine (`baseAgg`) -/

/-- One aggregation bucket `{ name, value }`. -/
structure Bucket where
  name : String
  value : ℚ
deriving DecidableEq, Repr

/-- `Map.set(key, (m.get(key) || 0) + v)`: a JS `Map` keeps an existing
key at its position and appends a new key (insertion order). -/
def upsert (m : List (String × ℚ)) (k : String) (v : ℚ) : List (String × ℚ) :=
  match m with
  | [] => [(k, v)]
  | p :: t => if p.1 = k then (p.1, p.2 + v) :: t else p :: upsert t k v

/-- One row's contribution to its bucket: `1` for the count metric,
otherwise `toNum(row[metric])` with non-finite contributions adding `0`. -/
def contrib (metric : String) (r : Row) : ℚ :=
  let addVal := if metric = "count" then JsNum.fin 1 else toNum (getCell r metric)
  if addVal.isFinite then addVal.toQ else 0

/-- The grouping loop of `baseAgg`: fold the rows into an
insertion-ordered map from coerced category to accumulated metric. -/
def groupFold (rows : List Row) (cat metric : String) : List (String × ℚ) :=
  rows.foldl (fun m r => upsert m (safeCat (getCell r cat)) (contrib metric r)) []

/-- The sort comparator of `baseAgg` as a total boolean preorder:
lexicographic by name when `sortBy = "name"` (the source's
`localeCompare`, modelled as code-unit string order — no claim below
depends on the collation), descending by value otherwise. -/
def bucketLe (sortBy : String) (a b : Bucket) : Bool :=
  if sortBy = "name" then decide (a.name ≤ b.name) else decide (b.value ≤ a.value)

/-- The engine's sort.  `Array.prototype.sort` is specified to be
stable, and for a total boolean preorder a stable sort's output is
unique, so a stable insertion sort models it exactly. -/
def stableSort (le : α → α → Bool) (l : List α) : List α :=
  List.insertionSort (fun a b => le a b = true) l

/-- The source's `baseAgg`: group, sort, and collapse the tail beyond
`topN` into a synthetic `"Other"` bucket (`topN = 0` means no limit). -/
def baseAgg (rows : List Row) (cat metric : String) (topN : ℕ) (sortBy : String) :
    List Bucket :=
  if cat = "" then []
  else
    let entries := (groupFold rows cat metric).map (fun p => Bucket.mk p.1 p.2)
    let sorted := stableSort (bucketLe sortBy) entries
    if 0 < topN ∧ topN < sorted.length then
      sorted.take topN ++ [⟨"Other", ((sorted.drop topN).map Bucket.value).sum⟩]
    else sorted

/-- The names of an aggregation result's buckets. -/
def namesOf (bs : List Bucket) : List String := bs.map Bucket.name

/-- The total of an aggregation result's values
(`agg.reduce((a, b) => a + b.value, 0)`). -/
def sumValues (bs : List Bucket) : ℚ := (bs.map Bucket.value).sum

/-- A row is accounted for by bucket `b` of a result when `b` bears the
row's coerced category name, or when that name has no bucket of its own
and `b` is the synthetic `"Other"` bucket. -/
def accounts (result : List Bucket) (k : String) (b : Bucket) : Prop :=
  b.name = k ∨ (k ∉ namesOf result ∧ b.name = "Other")

/-! ## Grouped aggregation (`groupedAgg`) -/

/-- One category of the two-dimensional aggregation: its name, its
total, and its per-group map. -/
structure CatEntry where
  name : String
  total : ℚ
  parts : List (String × ℚ)
deriving DecidableEq, Repr

/-- Append a value to an insertion-ordered set (`Set.add`). -/
def setAdd (s : List String) (k : String) : List String :=
  if s.contains k then s else s ++ [k]

/-- The grouping loop of `groupedAgg`: a map from category to (map from
group to accumulated metric), plus the set of group values observed. -/
def groupFold2 (rows : List Row) (cat groupBy metric : String) :
    List (String × List (String × ℚ)) × List String :=
  rows.foldl
    (fun acc r =>
      let key := safeCat (getCell r cat)
      let grp := safeCat (getCell r groupBy)
      let rowMap := (acc.1.find? (fun p => p.1 == key)).map Prod.snd |>.getD []
      (upsert2 acc.1 key (upsert rowMap grp (contrib metric r)), setAdd acc.2 grp))
    ([], [])
where
  /-- `m.set(key, rowMap)` on the outer map. -/
  upsert2 (m : List (String × List (String × ℚ))) (k : String)
      (v : List (String × ℚ)) : List (String × List (String × ℚ)) :=
    match m with
    | [] => [(k, v)]
    | p :: t => if p.1 = k then (p.1, v) :: t else p :: upsert2 t k v

/-- The source's `groupedAgg`: two-dimensional aggregation with top-N
collapse on the category dimension, returning the flattened
category×group records and the sorted group values. -/
def groupedAgg (rows : List Row) (cat groupBy metric : String) (topN : ℕ) :
    List Row × List String :=
  if cat = "" || groupBy = "" then ([], [])
  else
    let folded := groupFold2 rows cat groupBy metric
    let cats0 := folded.1.map (fun p =>
      CatEntry.mk p.1 ((p.2.map Prod.snd).sum) p.2)
    let cats1 := stableSort (fun a b => decide (b.total ≤ a.total)) cats0
    let cats :=
      if 0 < topN ∧ topN < cats1.length then
        let tail := cats1.drop topN
        let otherMap := tail.foldl
          (fun om t => t.parts.foldl (fun om2 gv => upsert om2 gv.1 gv.2) om) []
        cats1.take topN ++
          [CatEntry.mk "Other" ((otherMap.map Prod.snd).sum) otherMap]
      else cats1
    let groups := stableSort (fun a b : String => decide (a ≤ b)) folded.2
    let rowsOut := cats.map (fun c =>
      groups.foldl
        (fun row g =>
          objSet row g (.num (.fin (((c.parts.find? (fun p => p.1 == g)).map
            Prod.snd).getD 0))))
        (objSet [] cat (.str c.name)))
    (rowsOut, groups)

/-! ## Series transform engine -/

/-- The source's `firstFinite`: the first finite sample, else `NaN`. -/
def firstFinite : List JsNum → JsNum
  | [] => .nan
  | v :: t => if v.isFinite then v else firstFinite t

/-- The source's `finiteMin`: reduce with `Infinity`, taking a finite
sample when it is strictly smaller than the accumulator. -/
def finiteMin (arr : List JsNum) : JsNum :=
  arr.foldl (fun m v => if v.isFinite && jsLt v m then v else m) .inf

/-- The source's `finiteMax`. -/
def finiteMax (arr : List JsNum) : JsNum :=
  arr.foldl (fun m v => if v.isFinite && jsLt m v then v else m) .ninf

/-- The sum of the finite values of a window (`valid.reduce((a,b)=>a+b,0)`
over `valid = q.filter(isFiniteNum)`). -/
def sumFinite (q : List JsNum) : ℚ :=
  ((q.filter JsNum.isFinite).map JsNum.toQ).sum

/-- The loop body of `movingAvg`: `q` is the sliding queue of the last
at-most-`win` samples (non-finite samples pushed as `NaN`); each step
emits the window mean when the queue holds `win` finite samples, else
`NaN`. -/
def movingAvgGo (win : ℕ) (q : List JsNum) : List JsNum → List JsNum
  | [] => []
  | v :: rest =>
      let q1 := q ++ [if v.isFinite then v else .nan]
      let q2 := if win < q1.length then q1.tail else q1
      let out :=
        if (q2.filter JsNum.isFinite).length = win then
          JsNum.fin (sumFinite q2 / (win : ℚ))
        else JsNum.nan
      out :: movingAvgGo win q2 rest

/-- The source's `movingAvg`: a window of `≤ 1` is a pass-through
(`arr.slice()`), otherwise the sliding-window mean emitting `NaN` until
`win` consecutive finite samples have accumulated. -/
def movingAvg (arr : List JsNum) (win : ℕ) : List JsNum :=
  if win ≤ 1 then arr else movingAvgGo win [] arr

/-- The index-normalization branch of `processed`: divide by the first
finite sample and multiply by 100; when no finite sample exists the
series is left unchanged. -/
def indexNormalize (arr : List JsNum) : List JsNum :=
  let base := firstFinite arr
  if base.isFinite then
    arr.map (fun v =>
      if v.isFinite then jsMul (jsDiv v base) (.fin 100) else .nan)
  else arr

/-- The min-max-normalization branch of `processed`: `(v − min) / range`
over the finite values, `NaN` when the sample is non-finite or the range
is not positive. -/
def minmaxNormalize (arr : List JsNum) : List JsNum :=
  let mn := finiteMin arr
  let mx := finiteMax arr
  let rng := jsSub mx mn
  arr.map (fun v =>
    if v.isFinite && jsLt (.fin 0) rng then jsDiv (jsSub v mn) rng else .nan)

/-- Is a string exactly `YYYY-MM-DD` shaped (four digits, dash, two
digits, dash, two digits)? -/
def isIsoDateShape (s : String) : Bool :=
  match s.data with
  | [a, b, c, d, h1, m1, m2, h2, d1, d2] =>
      a.isDigit && b.isDigit && c.isDigit && d.isDigit &&
      h1 = '-' && m1.isDigit && m2.isDigit && h2 = '-' &&
      d1.isDigit && d2.isDigit
  | _ => false

/-- The source's `parseX`.  The platform `Date` parser is modelled on
ISO `YYYY-MM-DD` strings only: exactly those are recognised as dates
(date-only ISO strings parse as UTC, so `toISOString().slice(0, 10)` is
the identity on them); every other string is treated as an unparseable
date and falls back to the source's numeric-or-string passthrough.  No
claim below depends on which strings the platform recognises as dates. -/
def parseX (v : Cell) : Cell :=
  let s := jsToString v
  if isIsoDateShape s then .str s
  else
    let n := jsToNumber v
    if n = .nan then .str s else .num n

/-- The `processed` memo of the series view: cap the rows, extract each
selected series through `toNum`, optionally smooth, optionally
normalize, and re-attach the samples to per-row records. -/
def processed (rows : List Row) (x : String) (ys : List String)
    (smooth : ℕ) (normalize : String) (cap : ℕ) : List Row :=
  if x = "" || ys.isEmpty then []
  else
    let limited := if 0 < cap then rows.take cap else rows
    let series0 : String → List JsNum := fun k =>
      limited.map (fun r => toNum (getCell r k))
    let series1 : String → List JsNum := fun k =>
      if 0 < smooth then movingAvg (series0 k) smooth else series0 k
    let series2 : String → List JsNum := fun k =>
      if normalize = "index" then indexNormalize (series1 k)
      else if normalize = "minmax" then minmaxNormalize (series1 k)
      else series1 k
    (limited.enum).map (fun ri =>
      ys.foldl
        (fun row k => objSet row k (.num ((series2 k).getD ri.1 .nan)))
        (objSet (objSet [] "__i" (.num (.fin ri.1))) x (parseX (getCell ri.2 x))))

/-! ## Scatter points and regression statistics -/

/-- One scatter point `{ x, y, z, c, raw }`. -/
structure Point where
  x : JsNum
  y : JsNum
  z : JsNum
  c : String
  raw : Row
deriving DecidableEq, Repr

/-- The `z` (bubble size) value of one point:
`z ? toNum(r[z]) || 1 : 1`. -/
def zOf (zcol : String) (r : Row) : JsNum :=
  if zcol = "" then .fin 1 else jsOrNum (toNum (getCell r zcol)) (.fin 1)

/-- The source's `basePoints`: one point per row, keeping only those
with finite `x` and `y`. -/
def basePoints (rows : List Row) (x y zcol colorBy : String) : List Point :=
  if x = "" || y = "" then []
  else
    (rows.map (fun r =>
      Point.mk (toNum (getCell r x)) (toNum (getCell r y)) (zOf zcol r)
        (if colorBy = "" then "All" else safeStr (getCell r colorBy)) r)).filter
      (fun p => p.x.isFinite && p.y.isFinite)

/-- The `filtered` memo of the scatter view: keep the points inside the
numeric range filters, each filter ignored when its text box does not
parse to a number. -/
def filteredPoints (pts : List Point) (xMinS xMaxS yMinS yMaxS : String) :
    List Point :=
  let xmin := jsToNumber (.str xMinS)
  let xmax := jsToNumber (.str xMaxS)
  let ymin := jsToNumber (.str yMinS)
  let ymax := jsToNumber (.str yMaxS)
  pts.filter (fun p =>
    (xmin = .nan || jsLe xmin p.x) && (xmax = .nan || jsLe p.x xmax) &&
    (ymin = .nan || jsLe ymin p.y) && (ymax = .nan || jsLe p.y ymax))

/-- The result of `linearStats`; the `NaN` sentinel is `none`.  The
slope and intercept are exact rationals; `r` involves a square root and
lives in `ℝ`. -/
structure LinStats where
  r : Option ℝ
  slope : Option ℚ
  intercept : Option ℚ

/-- The valid pairs of a point list: those with both coordinates finite,
as exact rationals (the source's
`points.filter(([x, y]) => isFiniteNum(x) && isFiniteNum(y))`). -/
def validPairs (points : List (JsNum × JsNum)) : List (ℚ × ℚ) :=
  points.filterMap (fun p =>
    match p with
    | (.fin a, .fin b) => some (a, b)
    | _ => none)

/-- The source's `linearStats`.  `slope` uses the source's
`(… || NaN)` zero-denominator guard; `intercept` inherits `slope`'s
`NaN` through arithmetic propagation; `r` is `NaN` exactly when
`denR = Math.sqrt(prod)` is `0` — `Real.sqrt` maps a negative `prod`
to `0`, and the JS route through `NaN` yields `NaN` for `r` there as
well, so the two models agree (`prod` is in fact never negative). -/
noncomputable def linearStats (points : List (JsNum × JsNum)) : LinStats :=
  let pts := validPairs points
  let n : ℚ := pts.length
  if pts.length < 2 then ⟨none, none, none⟩
  else
    let sx := (pts.map Prod.fst).sum
    let sy := (pts.map Prod.snd).sum
    let sxx := (pts.map (fun p => p.1 * p.1)).sum
    let syy := (pts.map (fun p => p.2 * p.2)).sum
    let sxy := (pts.map (fun p => p.1 * p.2)).sum
    let numR := n * sxy - sx * sy
    let denSlope := n * sxx - sx * sx
    let prod := denSlope * (n * syy - sy * sy)
    let denR : ℝ := Real.sqrt (prod : ℝ)
    let r : Option ℝ := if denR = 0 then none else some ((numR : ℝ) / denR)
    let slope : Option ℚ := if denSlope = 0 then none else some (numR / denSlope)
    let intercept : Option ℚ := slope.map (fun m => (sy - m * sx) / n)
    ⟨r, slope, intercept⟩

/-- Spec-side: the valid sample count `n`. -/
def statN (points : List (JsNum × JsNum)) : ℚ := (validPairs points).length

/-- Spec-side: `Σx` over the valid pairs. -/
def statSx (points : List (JsNum × JsNum)) : ℚ :=
  ((validPairs points).map Prod.fst).sum

/-- Spec-side: `Σy` over the valid pairs. -/
def statSy (points : List (JsNum × JsNum)) : ℚ :=
  ((validPairs points).map Prod.snd).sum

/-- Spec-side: `Σx²` over the valid pairs. -/
def statSxx (points : List (JsNum × JsNum)) : ℚ :=
  ((validPairs points).map (fun p => p.1 * p.1)).sum

/-- Spec-side: `Σy²` over the valid pairs. -/
def statSyy (points : List (JsNum × JsNum)) : ℚ :=
  ((validPairs points).map (fun p => p.2 * p.2)).sum

/-- Spec-side: `Σxy` over the valid pairs. -/
def statSxy (points : List (JsNum × JsNum)) : ℚ :=
  ((validPairs points).map (fun p => p.1 * p.2)).sum

/-- Spec-side: the shared numerator `n·Σxy − Σx·Σy`. -/
def statNumR (points : List (JsNum × JsNum)) : ℚ :=
  statN points * statSxy points - statSx points * statSy points

/-- Spec-side: the slope denominator `n·Σx² − (Σx)²`. -/
def statDenSlope (points : List (JsNum × JsNum)) : ℚ :=
  statN points * statSxx points - statSx points * statSx points

/-- Spec-side: the product under `r`'s square root,
`(n·Σx² − (Σx)²)·(n·Σy² − (Σy)²)`. -/
def statProd (points : List (JsNum × JsNum)) : ℚ :=
  statDenSlope points * (statN points * statSyy points - statSy points * statSy points)

/-- The trailing window of length (at most) `win` ending at index `i`. -/
def trailingWindow (arr : List JsNum) (win i : ℕ) : List JsNum :=
  (arr.take (i + 1)).drop (i + 1 - win)

/-- The queue contents of `movingAvg` in terms of the processed prefix:
non-finite samples are pushed as `NaN`. -/
def markNan (arr : List JsNum) : List JsNum :=
  arr.map (fun v => if v.isFinite then v else .nan)

/-- The emitted moving-average sample for the window ending at index `i`. -/
def windowOut (arr : List JsNum) (win i : ℕ) : JsNum :=
  let w := trailingWindow arr win i
  if (w.filter JsNum.isFinite).length = win then
    .fin (sumFinite w / (win : ℚ))
  else .nan

/-! ## CSV exporters -/

/-- A simple line-per-record writer: every record, the header row
included, is newline-terminated. -/
def newlineTerminated (records : List String) : String :=
  String.join (records.map (fun l => l ++ "\n"))

/-- The records (header first) of the treatment-view export. -/
def treatmentRecords (rows : List Row) (cat metric groupBy : String)
    (topN : ℕ) (sortBy : String) : List String :=
  if groupBy = "" then
    String.intercalate "," ["Category", metric.toUpper] ::
      (baseAgg rows cat metric topN sortBy).map (fun r =>
        String.intercalate "," [csvSafe (.str r.name), csvSafe (.num (.fin r.value))])
  else
    let ga := groupedAgg rows cat groupBy metric topN
    String.intercalate "," (cat :: ga.2) ::
      ga.1.map (fun r =>
        String.intercalate ","
          (csvSafe (getCell r cat) :: ga.2.map (fun g => csvSafe (getCell r g))))

/-- The treatment-view `exportCSV`: nothing without a category column;
otherwise the header and one line per bucket (or per category record in
the grouped branch), each appended with `csv += line + "\n"`. -/
def exportTreatment (rows : List Row) (cat metric groupBy : String)
    (topN : ℕ) (sortBy : String) : Option String :=
  if cat = "" then none
  else if groupBy = "" then
    some ((baseAgg rows cat metric topN sortBy).foldl
      (fun csv r =>
        csv ++ String.intercalate ","
          [csvSafe (.str r.name), csvSafe (.num (.fin r.value))] ++ "\n")
      (String.intercalate "," ["Category", metric.toUpper] ++ "\n"))
  else
    let ga := groupedAgg rows cat groupBy metric topN
    some (ga.1.foldl
      (fun csv r =>
        csv ++ String.intercalate ","
          (csvSafe (getCell r cat) :: ga.2.map (fun g => csvSafe (getCell r g))) ++ "\n")
      (String.intercalate "," (cat :: ga.2) ++ "\n"))

/-- The records (header first) of the performance-view export. -/
def performanceRecords (rows : List Row) (x : String) (ys : List String)
    (smooth : ℕ) (normalize : String) (cap : ℕ) : List String :=
  String.intercalate "," (x :: ys) ::
    (processed rows x ys smooth normalize cap).map (fun d =>
      String.intercalate ","
        (csvSafe (getCell d x) :: ys.map (fun k => csvSafe (getCell d k))))

/-- The performance-view `exportCSV`: nothing when `processed` is empty;
otherwise the record lines joined with `"\n"` (`lines.join("\n")`). -/
def exportPerformance (rows : List Row) (x : String) (ys : List String)
    (smooth : ℕ) (normalize : String) (cap : ℕ) : Option String :=
  if (processed rows x ys smooth normalize cap).isEmpty then none
  else some (String.intercalate "\n"
    (performanceRecords rows x ys smooth normalize cap))

/-- The records (header first) of the factors-view export. -/
def factorsRecords (rows : List Row) (x y zcol colorBy : String)
    (xMinS xMaxS yMinS yMaxS : String) : List String :=
  let filtered :=
    filteredPoints (basePoints rows x y zcol colorBy) xMinS xMaxS yMinS yMaxS
  String.intercalate ","
      ([x, y] ++ (if zcol = "" then [] else [zcol]) ++
        (if colorBy = "" then [] else [colorBy])) ::
    filtered.map (fun p =>
      String.intercalate ","
        (([getCell p.raw x, getCell p.raw y] ++
          (if zcol = "" then [] else [getCell p.raw zcol]) ++
          (if colorBy = "" then [] else [getCell p.raw colorBy])).map csvSafe))

/-- The factors-view `exportCSV`: the record lines joined with `"\n"`
(`lines.join("\n")`), with no emptiness guard. -/
def exportFactors (rows : List Row) (x y zcol colorBy : String)
    (xMinS xMaxS yMinS yMaxS : String) : String :=
  String.intercalate "\n" (factorsRecords rows x y zcol colorBy xMinS xMaxS yMinS yMaxS)

/-! ## Concrete inputs used by witnesses and counterexamples -/

/-- Rows whose category column contains the literal value `"Other"`. -/
def rowsOtherClash : List Row :=
  [[("c", .str "Other")], [("c", .str "Other")],
   [("c", .str "A")], [("c", .str "A")], [("c", .str "B")]]

/-- Four-bucket rows matching the spec's top-N example:
A×10, B×8, C×5, D×1. -/
def rowsTopN : List Row :=
  (List.replicate 10 [("c", Cell.str "A")]) ++
  (List.replicate 8 [("c", Cell.str "B")]) ++
  (List.replicate 5 [("c", Cell.str "C")]) ++
  (List.replicate 1 [("c", Cell.str "D")])

/-- The spec's regression example `[(1,2),(2,4),(3,6)]`. -/
def ptsRegression : List (JsNum × JsNum) :=
  [(.fin 1, .fin 2), (.fin 2, .fin 4), (.fin 3, .fin 6)]

/-- A degenerate sample: two valid pairs with equal `x`. -/
def ptsDegenerate : List (JsNum × JsNum) :=
  [(.fin 1, .fin 1), (.fin 1, .fin 2)]

/-- The spec's moving-average example series `[1,2,3,4,5]`. -/
def serOneToFive : List JsNum := [.fin 1, .fin 2, .fin 3, .fin 4, .fin 5]

/-- The classifier example rows `[{a:"1",b:"x"}, {a:"2",b:""}]`. -/
def rowsClassify : List Row :=
  [[("a", .str "1"), ("b", .str "x")], [("a", .str "2"), ("b", .str "")]]

/-- A single row whose only column holds the string `"Infinity"`. -/
def rowsInfinity : List Row := [[("a", .str "Infinity")]]

/-- One performance row used against the series exporter. -/
def rowsPerfOne : List Row := [[("t", .str "2020-01-01"), ("v", .num (.fin 1))]]

/-- One factors row used against the points exporter and `basePoints`. -/
def rowsFactorsOne : List Row := [[("u", .num (.fin 1)), ("v", .num (.fin 2))]]

/-- The point built from `rowsFactorsOne` with no size or color column. -/
def pt0 : Point :=
  ⟨.fin 1, .fin 2, .fin 1, "All", [("u", .num (.fin 1)), ("v", .num (.fin 2))]⟩

/-! # Theorems -/

/-! ## C8 — CSV field serialization -/

theorem escQuotes_eq_nil {l : List Char} (h : escQuotes l = []) : l = [] := by
  cases l with
  | nil => rfl
  | cons c t =>
    simp only [escQuotes] at h
    split at h <;> simp_all

theorem unescQuotes_escQuotes (l : List Char) :
    unescQuotes (escQuotes l) = l := by
  induction l with
  | nil => rfl
  | cons c t ih =>
    by_cases hc : c = '"'
    · subst hc
      have h1 : escQuotes ('"' :: t) = '"' :: '"' :: escQuotes t := by
        simp [escQuotes]
      rw [h1]
      rw [show unescQuotes ('"' :: '"' :: escQuotes t) = '"' :: unescQuotes (escQuotes t)
        by simp [unescQuotes]]
      rw [ih]
    · simp only [escQuotes, if_neg hc]
      cases ht : escQuotes t with
      | nil =>
        have h0 : t = [] := escQuotes_eq_nil ht
        subst h0
        simp [unescQuotes]
      | cons d u =>
        rw [show unescQuotes (c :: d :: u) = c :: unescQuotes (d :: u) by
          simp [unescQuotes, hc]]
        rw [← ht, ih]

theorem not_needsQuote_no_quote {s : String} (h : needsQuote s = false) :
    '"' ∉ s.data := by
  intro hmem
  simp only [needsQuote, List.any_eq_false] at h
  have := h '"' hmem
  simp at this

/-- C8: CSV field serialization wraps a field in double quotes iff the
field contains a comma, double quote, or newline, doubling internal
double quotes; it emits all other fields verbatim and serializes
`null`/`undefined` to the empty string; un-quoting a serialized field
recovers the original string. -/
theorem csvSafe_spec (s : String) :
    csvSafe .null = "" ∧ csvSafe .undefined = "" ∧
    (needsQuote s = true →
      csvSafe (.str s) = String.mk ('"' :: (escQuotes s.data ++ ['"']))) ∧
    (needsQuote s = false → csvSafe (.str s) = s) ∧
    unquoteField (csvSafe (.str s)) = s := by
  have hval : csvSafe (.str s) =
      if needsQuote s then String.mk ('"' :: (escQuotes s.data ++ ['"'])) else s := by
    simp [csvSafe, jsToString]
  refine ⟨rfl, rfl, ?_, ?_, ?_⟩
  · intro h
    rw [hval, if_pos h]
  · intro h
    rw [hval, h]
    simp
  · by_cases h : needsQuote s
    · rw [hval, if_pos h]
      show unquoteField (String.mk ('"' :: (escQuotes s.data ++ ['"']))) = s
      have hdata : (String.mk ('"' :: (escQuotes s.data ++ ['"']))).data =
          '"' :: (escQuotes s.data ++ ['"']) := rfl
      rw [unquoteField, if_pos (by rw [hdata]; exact ⟨rfl, by simp,
        List.getLastD_concat ' ' '"' (escQuotes s.data)⟩)]
      rw [hdata]
      show String.mk (unescQuotes (escQuotes s.data ++ ['"']).dropLast) = s
      rw [List.dropLast_concat, unescQuotes_escQuotes]
    · rw [hval, if_neg h]
      have hq : '"' ∉ s.data := not_needsQuote_no_quote (by simpa using h)
      rw [unquoteField, if_neg]
      rintro ⟨h1, -, -⟩
      cases hd : s.data with
      | nil => rw [hd] at h1; exact Option.noConfusion h1
      | cons c rest =>
        rw [hd] at h1
        have hc : c = '"' := by simpa using h1
        exact hq (by rw [hd, hc]; exact List.mem_cons_self _ _)

/-- C8 witness: the spec's example field `a,b"c` serializes to
`"a,b""c"` and un-quotes back to the original. -/
theorem csvSafe_spec_witness :
    needsQuote "a,b\"c" = true ∧
    csvSafe (.str "a,b\"c") = "\"a,b\"\"c\"" ∧
    unquoteField (csvSafe (.str "a,b\"c")) = "a,b\"c" := by
  have h := csvSafe_spec "a,b\"c"
  refine ⟨by decide, ?_, h.2.2.2.2⟩
  rw [h.2.2.1 (by decide)]
  decide

/-! ## C9 — column classification -/

/-- C9 counterexample: on the single row `{a: "Infinity"}` the claim's
characterisation fails — the code classifies `a` as numeric
(`!isNaN(Number("Infinity"))` holds) although `"Infinity"` is neither
empty nor a finite number. -/
theorem numericCols_infinity_cex :
    numericCols rowsInfinity = ["a"] ∧
    ¬ (("a" ∈ numericCols rowsInfinity) ↔
        ("a" ∈ keysOf rowsInfinity ∧
          ∀ r ∈ rowsInfinity,
            getCell r "a" = .str "" ∨ (jsToNumber (getCell r "a")).isFinite = true)) := by
  constructor
  · decide
  · decide

/-- C9 (amended): a column of the first row is classified numeric iff
every row's value for that key is the empty string or coerces to a
non-`NaN` number (finite or infinite); the numeric and categorical sets
partition the first row's keys; a column whose every value is the empty
string is numeric; and on `[{a:"1",b:"x"}, {a:"2",b:""}]` column `a` is
numeric and column `b` categorical. -/
theorem numericCols_classification (rows : List Row) (k : String) :
    (k ∈ numericCols rows ↔
      k ∈ keysOf rows ∧
        ∀ r ∈ rows, getCell r k = .str "" ∨ jsToNumber (getCell r k) ≠ .nan) ∧
    (k ∈ catCols rows ↔ k ∈ keysOf rows ∧ k ∉ numericCols rows) ∧
    numericCols [[("e", Cell.str "")]] = ["e"] ∧
    numericCols rowsClassify = ["a"] ∧ catCols rowsClassify = ["b"] := by
  refine ⟨?_, ?_, by decide, by decide, by decide⟩
  · cases rows with
    | nil => simp [numericCols, keysOf]
    | cons r0 rest =>
      simp only [numericCols, keysOf, numericKey, List.mem_filter,
        List.all_eq_true, Bool.or_eq_true, decide_eq_true_eq]
  · cases rows with
    | nil => simp [catCols, keysOf]
    | cons r0 rest =>
      simp only [catCols, keysOf, List.mem_filter, Bool.not_eq_true']
      constructor
      · rintro ⟨h1, h2⟩
        exact ⟨h1, by simpa using h2⟩
      · rintro ⟨h1, h2⟩
        exact ⟨h1, by simpa using h2⟩

/-- C9 witness: the amended characterisation applied to the concrete
classifier example. -/
theorem numericCols_classification_witness :
    ("a" ∈ numericCols rowsClassify ↔
      "a" ∈ keysOf rowsClassify ∧
        ∀ r ∈ rowsClassify,
          getCell r "a" = .str "" ∨ jsToNumber (getCell r "a") ≠ .nan) ∧
    ("a" ∈ numericCols rowsClassify) :=
  ⟨(numericCols_classification rowsClassify "a").1, by decide⟩

/-! ## C3 — moving average -/

theorem length_filter_eq_all {p : α → Bool} {l : List α}
    (h : (l.filter p).length = l.length) : ∀ a ∈ l, p a = true := by
  induction l with
  | nil => intro a ha; cases ha
  | cons a t ih =>
    by_cases hp : p a
    · intro b hb
      rcases List.mem_cons.mp hb with hb | hb
      · exact hb ▸ hp
      · refine ih ?_ b hb
        rw [List.filter_cons_of_pos hp] at h
        simpa using h
    · exfalso
      rw [List.filter_cons_of_neg hp] at h
      have := List.length_filter_le p t
      simp [List.length_cons] at h
      omega

theorem filter_markNan (l : List JsNum) :
    (markNan l).filter JsNum.isFinite = l.filter JsNum.isFinite := by
  induction l with
  | nil => rfl
  | cons v t ih =>
    by_cases hv : v.isFinite
    · simp [markNan, hv, List.filter_cons] at ih ⊢
      exact ih
    · have hv2 : JsNum.nan.isFinite = false := rfl
      simp only [markNan, List.map_cons, if_neg hv]
      rw [List.filter_cons_of_neg (by simpa using hv2),
        List.filter_cons_of_neg (by simpa using hv)]
      simpa [markNan] using ih

theorem movingAvgGo_eq (win : ℕ) (hwin : 1 ≤ win) :
    ∀ (rest pre : List JsNum),
    movingAvgGo win (markNan (pre.drop (pre.length - win))) rest =
      (List.range rest.length).map
        (fun j => windowOut (pre ++ rest) win (pre.length + j)) := by
  intro rest
  induction rest with
  | nil => intro pre; simp [movingAvgGo]
  | cons v rest ih =>
    intro pre
    have hq2 :
        (let q1 := markNan (pre.drop (pre.length - win)) ++
            [if v.isFinite then v else JsNum.nan]
         if win < q1.length then q1.tail else q1) =
          markNan ((pre ++ [v]).drop (pre.length + 1 - win)) := by
      have hmark : markNan (pre.drop (pre.length - win)) ++
          [if v.isFinite then v else JsNum.nan] =
          markNan (pre.drop (pre.length - win) ++ [v]) := by
        simp [markNan]
      by_cases hn : pre.length < win
      · have h0 : pre.length - win = 0 := by omega
        have h1 : pre.length + 1 - win = 0 := by omega
        have hlen : (markNan (pre.drop (pre.length - win)) ++
            [if v.isFinite then v else JsNum.nan]).length = pre.length + 1 := by
          simp [markNan, h0]
        simp only [hlen]
        rw [if_neg (by omega)]
        rw [hmark, h0, h1]
        simp
      · have hw : win ≤ pre.length := by omega
        have hlenq : (markNan (pre.drop (pre.length - win))).length = win := by
          simp [markNan]
          omega
        have hlen : (markNan (pre.drop (pre.length - win)) ++
            [if v.isFinite then v else JsNum.nan]).length = win + 1 := by
          simp [hlenq]
        simp only [hlen]
        rw [if_pos (by omega)]
        rw [hmark]
        have hne : markNan (pre.drop (pre.length - win)) ≠ [] := by
          intro hcon
          rw [hcon] at hlenq
          simp at hlenq
          omega
        rw [show markNan (pre.drop (pre.length - win) ++ [v]) =
            markNan (pre.drop (pre.length - win)) ++ markNan [v] by simp [markNan]]
        rw [List.tail_append_of_ne_nil hne]
        rw [show (markNan (pre.drop (pre.length - win))).tail =
            markNan ((pre.drop (pre.length - win)).tail) by
          simp [markNan, ← List.map_tail]]
        rw [List.tail_drop]
        rw [show pre.length - win + 1 = pre.length + 1 - win by omega]
        rw [show (pre ++ [v]).drop (pre.length + 1 - win) =
            pre.drop (pre.length + 1 - win) ++ [v] by
          rw [List.drop_append_of_le_length (by omega)]]
        simp [markNan]
    show (let q1 := markNan (pre.drop (pre.length - win)) ++
        [if v.isFinite then v else JsNum.nan]
      let q2 := if win < q1.length then q1.tail else q1
      let out := if (q2.filter JsNum.isFinite).length = win then
          JsNum.fin (sumFinite q2 / (win : ℚ)) else JsNum.nan
      out :: movingAvgGo win q2 rest) = _
    simp only [hq2]
    have hout :
        (if ((markNan ((pre ++ [v]).drop (pre.length + 1 - win))).filter
            JsNum.isFinite).length = win then
          JsNum.fin (sumFinite (markNan ((pre ++ [v]).drop (pre.length + 1 - win))) /
            (win : ℚ))
        else JsNum.nan) = windowOut (pre ++ v :: rest) win pre.length := by
      have hW : trailingWindow (pre ++ v :: rest) win pre.length =
          (pre ++ [v]).drop (pre.length + 1 - win) := by
        unfold trailingWindow
        congr 1
        rw [show pre ++ v :: rest = (pre ++ [v]) ++ rest by simp]
        rw [show pre.length + 1 = (pre ++ [v]).length by simp]
        exact List.take_left _ _
      rw [windowOut, hW]
      rw [show sumFinite (markNan ((pre ++ [v]).drop (pre.length + 1 - win))) =
          sumFinite ((pre ++ [v]).drop (pre.length + 1 - win)) by
        unfold sumFinite; rw [filter_markNan]]
      rw [filter_markNan]
    rw [hout]
    have htail := ih (pre ++ [v])
    rw [show (pre ++ [v]).length - win = pre.length + 1 - win by simp] at htail
    rw [htail]
    rw [List.length_cons, List.range_succ_eq_map, List.map_cons, List.map_map]
    refine congrArg₂ List.cons (by simp) ?_
    apply List.map_congr_left
    intro j hj
    have h1 : (pre ++ [v]) ++ rest = pre ++ v :: rest := by simp
    have h2 : (pre ++ [v]).length + j = pre.length + Nat.succ j := by
      simp only [List.length_append, List.length_cons, List.length_nil]
      omega
    show windowOut ((pre ++ [v]) ++ rest) win ((pre ++ [v]).length + j) = _
    rw [h1, h2]
    rfl

/-- C3: a window of at most 1 is a pass-through; for a window `w ≥ 2`
the output at index `i` is the arithmetic mean of the trailing `w`
samples ending at `i` when those `w` samples exist and are all finite,
and the `NaN` sentinel otherwise. -/
theorem movingAvg_spec (arr : List JsNum) (win : ℕ) :
    (win ≤ 1 → movingAvg arr win = arr) ∧
    (2 ≤ win →
      (movingAvg arr win).length = arr.length ∧
      ∀ i, i < arr.length →
        (movingAvg arr win).getD i .nan =
          if win ≤ i + 1 ∧ ∀ v ∈ trailingWindow arr win i, v.isFinite = true then
            .fin (((trailingWindow arr win i).map JsNum.toQ).sum / (win : ℚ))
          else .nan) := by
  constructor
  · intro h
    simp [movingAvg, h]
  · intro h
    have hrepr : movingAvg arr win =
        (List.range arr.length).map (fun j => windowOut arr win j) := by
      rw [movingAvg, if_neg (by omega)]
      have := movingAvgGo_eq win (by omega) arr []
      simpa using this
    have hlenW : ∀ i, i < arr.length →
        (trailingWindow arr win i).length = min (i + 1) win := by
      intro i hi
      unfold trailingWindow
      rw [List.length_drop, List.length_take]
      omega
    constructor
    · rw [hrepr]; simp
    · intro i hi
      rw [hrepr, List.getD_eq_getElem?_getD, List.getElem?_map,
        List.getElem?_range hi]
      show windowOut arr win i = _
      rw [windowOut]
      by_cases hcond : win ≤ i + 1 ∧ ∀ v ∈ trailingWindow arr win i, v.isFinite = true
      · have hfil : (trailingWindow arr win i).filter JsNum.isFinite =
            trailingWindow arr win i := List.filter_eq_self.mpr hcond.2
        rw [if_pos hcond]
        simp only [hfil]
        rw [if_pos (by rw [hlenW i hi]; omega)]
        unfold sumFinite
        rw [hfil]
      · rw [if_neg hcond]
        rw [if_neg]
        intro hlen
        refine hcond ⟨?_, ?_⟩
        · have h1 := List.length_filter_le JsNum.isFinite (trailingWindow arr win i)
          have h2 := hlenW i hi
          omega
        · refine length_filter_eq_all ?_
          rw [hlen, hlenW i hi]
          have h1 := List.length_filter_le JsNum.isFinite (trailingWindow arr win i)
          rw [hlen] at h1
          have h2 := hlenW i hi
          omega

/-- C3 witness: window 1 is a pass-through on `[1,2,3,4,5]`, and window
3 over `[1,2,3,4,5]` yields `[NaN, NaN, 2, 3, 4]`. -/
theorem movingAvg_spec_witness :
    (1 : ℕ) ≤ 1 ∧ movingAvg serOneToFive 1 = serOneToFive ∧
    movingAvg serOneToFive 3 =
      [JsNum.nan, JsNum.nan, JsNum.fin 2, JsNum.fin 3, JsNum.fin 4] :=
  ⟨le_refl 1, (movingAvg_spec serOneToFive 1).1 (le_refl 1), by
    norm_num [serOneToFive, movingAvg, movingAvgGo, sumFinite, markNan,
      JsNum.isFinite, JsNum.toQ]⟩

/-! ## C6 — index normalization -/

theorem firstFinite_of_none {arr : List JsNum}
    (h : ∀ v ∈ arr, v.isFinite = false) : firstFinite arr = .nan := by
  induction arr with
  | nil => rfl
  | cons v t ih =>
    have hv := h v (List.mem_cons_self _ _)
    rw [firstFinite, if_neg (by simp [hv])]
    exact ih (fun w hw => h w (List.mem_cons_of_mem _ hw))

theorem firstFinite_fin {arr : List JsNum} {b : ℚ}
    (h : firstFinite arr = .fin b) :
    ∃ pre suf, arr = pre ++ .fin b :: suf ∧ ∀ v ∈ pre, v.isFinite = false := by
  induction arr with
  | nil => exact absurd h (by simp [firstFinite])
  | cons v t ih =>
    by_cases hv : v.isFinite
    · rw [firstFinite, if_pos hv] at h
      exact ⟨[], t, by rw [h]; rfl, by intro w hw; cases hw⟩
    · rw [firstFinite, if_neg hv] at h
      rcases ih h with ⟨pre, suf, heq, hpre⟩
      refine ⟨v :: pre, suf, by rw [heq]; rfl, ?_⟩
      intro w hw
      rcases List.mem_cons.mp hw with hw | hw
      · rw [hw]; simpa using hv
      · exact hpre w hw

/-- C6 counterexample: the series `[Infinity]` has no finite sample, yet
index normalization leaves it unchanged — the output sample is
`Infinity`, not the `NaN` sentinel. -/
theorem indexNormalize_inf_cex :
    (∀ v ∈ [JsNum.inf], v.isFinite = false) ∧
    indexNormalize [JsNum.inf] = [JsNum.inf] ∧
    ¬ (∀ v ∈ indexNormalize [JsNum.inf], v = JsNum.nan) := by
  refine ⟨by decide, by decide, by decide⟩

/-- C6 (amended): when the series has a finite sample, the first such
sample `b` is the base and every sample maps to `(v / b) × 100` (in JS
number arithmetic), with non-finite samples mapped to `NaN`; when no
finite sample exists the series is returned unchanged (all samples
non-finite as given — in particular an all-`NaN` series stays all
`NaN`). -/
theorem indexNormalize_spec (arr : List JsNum) :
    (∀ b : ℚ, firstFinite arr = .fin b →
      (∃ pre suf, arr = pre ++ .fin b :: suf ∧ ∀ v ∈ pre, v.isFinite = false) ∧
      indexNormalize arr = arr.map (fun v =>
        if v.isFinite then jsMul (jsDiv v (.fin b)) (.fin 100) else .nan)) ∧
    ((∀ v ∈ arr, v.isFinite = false) → indexNormalize arr = arr) := by
  constructor
  · intro b hb
    refine ⟨firstFinite_fin hb, ?_⟩
    rw [indexNormalize, hb, if_pos (show (JsNum.fin b).isFinite = true from rfl)]
  · intro h
    rw [indexNormalize, firstFinite_of_none h]
    rw [if_neg (by decide)]

/-- C6 witness: on `[2, NaN, 4]` the base is `2` and the output is
`[100, NaN, 200]`. -/
theorem indexNormalize_spec_witness :
    firstFinite [JsNum.fin 2, JsNum.nan, JsNum.fin 4] = JsNum.fin 2 ∧
    indexNormalize [JsNum.fin 2, JsNum.nan, JsNum.fin 4] =
      [JsNum.fin 2, JsNum.nan, JsNum.fin 4].map (fun v =>
        if v.isFinite then jsMul (jsDiv v (.fin 2)) (.fin 100) else .nan) ∧
    indexNormalize [JsNum.fin 2, JsNum.nan, JsNum.fin 4] =
      [JsNum.fin 100, JsNum.nan, JsNum.fin 200] := by
  have h :=
    ((indexNormalize_spec [JsNum.fin 2, JsNum.nan, JsNum.fin 4]).1 2 (by decide))
  refine ⟨by decide, h.2, ?_⟩
  rw [h.2]
  norm_num [jsMul, jsDiv, JsNum.isFinite]

/-! ## C10 — bubble size never NaN and never 0 -/

theorem zOf_spec (zcol : String) (r : Row) :
    zOf zcol r ≠ .nan ∧ zOf zcol r ≠ .fin 0 ∧
    (zcol = "" → zOf zcol r = .fin 1) ∧
    ((toNum (getCell r zcol) = .nan ∨ toNum (getCell r zcol) = .fin 0) →
      zOf zcol r = .fin 1) := by
  by_cases hz : zcol = ""
  · rw [zOf, if_pos hz]
    exact ⟨by decide, by decide, fun _ => rfl, fun _ => rfl⟩
  · rw [zOf, if_neg hz]
    rcases hn : toNum (getCell r zcol) with q | _ | _ | _
    · by_cases hq : q = 0
      · subst hq
        rw [jsOrNum, if_neg (by simp [JsNum.truthy])]
        exact ⟨by decide, by decide, fun h => absurd h hz, fun _ => rfl⟩
      · rw [jsOrNum, if_pos (by simp [JsNum.truthy, hq])]
        refine ⟨by simp, by simp [hq], fun h => absurd h hz, ?_⟩
        rintro (h | h) <;> simp_all
    · rw [jsOrNum, if_neg (by simp [JsNum.truthy])]
      exact ⟨by decide, by decide, fun h => absurd h hz, fun _ => rfl⟩
    · rw [jsOrNum, if_pos (by simp [JsNum.truthy])]
      exact ⟨by decide, by decide, fun h => absurd h hz, by rintro (h | h) <;> simp_all⟩
    · rw [jsOrNum, if_pos (by simp [JsNum.truthy])]
      exact ⟨by decide, by decide, fun h => absurd h hz, by rintro (h | h) <;> simp_all⟩

/-- C10: every point constructed by the scatter view has a `z` that is
neither the `NaN` sentinel nor `0`: with no size column selected it is
exactly `1`, and a missing, unparseable, or zero size cell is coerced to
`1`. -/
theorem basePoints_z (rows : List Row) (x y zcol colorBy : String) (p : Point)
    (hp : p ∈ basePoints rows x y zcol colorBy) :
    p.z ≠ .nan ∧ p.z ≠ .fin 0 ∧ (zcol = "" → p.z = .fin 1) ∧
    ∃ r ∈ rows, p.z = zOf zcol r ∧
      ((toNum (getCell r zcol) = .nan ∨ toNum (getCell r zcol) = .fin 0) →
        p.z = .fin 1) := by
  unfold basePoints at hp
  by_cases hxy : (x == "" || y == "") = true
  · rw [if_pos (by simpa using hxy)] at hp
    cases hp
  · rw [if_neg (by simpa using hxy)] at hp
    have hp2 := (List.mem_filter.mp hp).1
    rcases List.mem_map.mp hp2 with ⟨r, hr, hpr⟩
    have hz : p.z = zOf zcol r := by rw [← hpr]
    have h := zOf_spec zcol r
    rw [← hz] at h
    exact ⟨h.1, h.2.1, h.2.2.1, r, hr, hz, h.2.2.2⟩

/-- C10 witness: the single point built from `rowsFactorsOne` with no
size column has `z = 1`. -/
theorem basePoints_z_witness :
    pt0 ∈ basePoints rowsFactorsOne "u" "v" "" "" ∧
    pt0.z ≠ JsNum.nan ∧ pt0.z ≠ JsNum.fin 0 ∧ pt0.z = JsNum.fin 1 := by
  have hmem : pt0 ∈ basePoints rowsFactorsOne "u" "v" "" "" := by decide
  have h := basePoints_z rowsFactorsOne "u" "v" "" "" pt0 hmem
  exact ⟨hmem, h.1, h.2.1, h.2.2.1 rfl⟩

/-! ## C4, C5 — linear regression statistics -/

theorem linearStats_def (points : List (JsNum × JsNum)) :
    linearStats points =
      if (validPairs points).length < 2 then ⟨none, none, none⟩
      else
        ⟨if Real.sqrt ((statProd points : ℝ)) = 0 then none
           else some ((statNumR points : ℝ) / Real.sqrt ((statProd points : ℝ))),
         if statDenSlope points = 0 then none
           else some (statNumR points / statDenSlope points),
         if statDenSlope points = 0 then none
           else some ((statSy points - statNumR points / statDenSlope points *
             statSx points) / statN points)⟩ := by
  simp only [linearStats, statProd, statNumR, statDenSlope, statSy, statSx, statN,
    statSxx, statSyy, statSxy]
  by_cases h : (validPairs points).length < 2
  · rw [if_pos h, if_pos h]
  · rw [if_neg h, if_neg h]
    by_cases hd : ((validPairs points).length : ℚ) *
        ((validPairs points).map (fun p => p.1 * p.1)).sum -
        ((validPairs points).map Prod.fst).sum *
        ((validPairs points).map Prod.fst).sum = 0
    · simp [hd]
    · simp [hd]

/-- C5: `linearStats` yields the `NaN` sentinel (modelled as `none`) for
all three outputs when fewer than two valid pairs remain after
filtering, and for any output whose denominator is zero — the slope
(and with it the intercept) when `n·Σx² − (Σx)²` is zero, and `r` when
the product under its square root is zero. -/
theorem linearStats_sentinels (points : List (JsNum × JsNum)) :
    ((validPairs points).length < 2 →
      (linearStats points).r = none ∧ (linearStats points).slope = none ∧
        (linearStats points).intercept = none) ∧
    (statDenSlope points = 0 →
      (linearStats points).slope = none ∧ (linearStats points).intercept = none) ∧
    (statProd points = 0 → (linearStats points).r = none) := by
  refine ⟨?_, ?_, ?_⟩
  · intro h
    rw [linearStats_def, if_pos h]
    exact ⟨rfl, rfl, rfl⟩
  · intro h
    rw [linearStats_def]
    by_cases hlen : (validPairs points).length < 2
    · rw [if_pos hlen]; exact ⟨rfl, rfl⟩
    · rw [if_neg hlen]
      exact ⟨by simp [h], by simp [h]⟩
  · intro h
    rw [linearStats_def]
    by_cases hlen : (validPairs points).length < 2
    · rw [if_pos hlen]
    · rw [if_neg hlen]
      have : Real.sqrt ((statProd points : ℝ)) = 0 := by
        rw [h]
        simp [Real.sqrt_zero]
      simp [this]

/-- C5 witness: the empty list has fewer than two valid pairs and all
three outputs are the sentinel; the degenerate sample `[(1,1),(1,2)]`
has a zero slope denominator and a zero `r` denominator, and all three
outputs are again the sentinel. -/
theorem linearStats_sentinels_witness :
    (validPairs ([] : List (JsNum × JsNum))).length < 2 ∧
    (linearStats []).r = none ∧ (linearStats []).slope = none ∧
    (linearStats []).intercept = none ∧
    statDenSlope ptsDegenerate = 0 ∧ statProd ptsDegenerate = 0 ∧
    (linearStats ptsDegenerate).slope = none ∧
    (linearStats ptsDegenerate).intercept = none ∧
    (linearStats ptsDegenerate).r = none := by
  have h1 := (linearStats_sentinels []).1 (by decide)
  have hv : validPairs ptsDegenerate = [(1, 1), (1, 2)] := rfl
  have hden : statDenSlope ptsDegenerate = 0 := by
    norm_num [statDenSlope, statN, statSxx, statSx, hv]
  have hprod : statProd ptsDegenerate = 0 := by
    rw [statProd, hden]
    ring
  have h2 := (linearStats_sentinels ptsDegenerate).2.1 hden
  have h3 := (linearStats_sentinels ptsDegenerate).2.2 hprod
  exact ⟨by decide, h1.1, h1.2.1, h1.2.2, hden, hprod, h2.1, h2.2, h3⟩

/-- C4: over the pairs with both coordinates finite (`n` of them), and
whenever the denominators do not vanish, `linearStats` returns
`slope = (n·Σxy − Σx·Σy) / (n·Σx² − (Σx)²)`,
`intercept = (Σy − slope·Σx) / n`, and
`r = (n·Σxy − Σx·Σy) / sqrt((n·Σx² − (Σx)²)·(n·Σy² − (Σy)²))`. -/
theorem linearStats_formulas (points : List (JsNum × JsNum))
    (h2 : 2 ≤ (validPairs points).length) :
    (statDenSlope points ≠ 0 →
      (linearStats points).slope = some (statNumR points / statDenSlope points) ∧
      (linearStats points).intercept =
        some ((statSy points - statNumR points / statDenSlope points *
          statSx points) / statN points)) ∧
    (0 < statProd points →
      (linearStats points).r =
        some ((statNumR points : ℝ) / Real.sqrt ((statProd points : ℝ)))) := by
  have hlen : ¬ (validPairs points).length < 2 := by omega
  constructor
  · intro hden
    rw [linearStats_def, if_neg hlen]
    exact ⟨by simp [hden], by simp [hden]⟩
  · intro hprod
    have hsq : ¬ Real.sqrt ((statProd points : ℝ)) = 0 := by
      rw [Real.sqrt_eq_zero']
      push_neg
      exact_mod_cast hprod
    rw [linearStats_def, if_neg hlen]
    simp [hsq]

/-- C4 witness: on `[(1,2),(2,4),(3,6)]` the hypotheses hold and the
result is `slope = 2`, `intercept = 0`, `r = 1`. -/
theorem linearStats_formulas_witness :
    2 ≤ (validPairs ptsRegression).length ∧
    statDenSlope ptsRegression ≠ 0 ∧ 0 < statProd ptsRegression ∧
    (linearStats ptsRegression).slope = some 2 ∧
    (linearStats ptsRegression).intercept = some 0 ∧
    (linearStats ptsRegression).r = some 1 := by
  have hv : validPairs ptsRegression = [(1, 2), (2, 4), (3, 6)] := rfl
  have hN : statN ptsRegression = 3 := by
    norm_num [statN, hv]
  have hSx : statSx ptsRegression = 6 := by
    norm_num [statSx, hv]
  have hSy : statSy ptsRegression = 12 := by
    norm_num [statSy, hv]
  have hSxx : statSxx ptsRegression = 14 := by
    norm_num [statSxx, hv]
  have hSyy : statSyy ptsRegression = 56 := by
    norm_num [statSyy, hv]
  have hSxy : statSxy ptsRegression = 28 := by
    norm_num [statSxy, hv]
  have hnum : statNumR ptsRegression = 12 := by
    rw [statNumR, hN, hSxy, hSx, hSy]; norm_num
  have hdenv : statDenSlope ptsRegression = 6 := by
    rw [statDenSlope, hN, hSxx, hSx]; norm_num
  have hprodv : statProd ptsRegression = 144 := by
    rw [statProd, statDenSlope, hN, hSxx, hSx, hSyy, hSy]; norm_num
  have h2 : 2 ≤ (validPairs ptsRegression).length := by decide
  have hden : statDenSlope ptsRegression ≠ 0 := by rw [hdenv]; norm_num
  have hprod : (0 : ℚ) < statProd ptsRegression := by rw [hprodv]; norm_num
  have h := linearStats_formulas ptsRegression h2
  have hsqrt : Real.sqrt ((statProd ptsRegression : ℝ)) = 12 := by
    rw [hprodv]
    rw [show (((144 : ℚ) : ℝ)) = (12 : ℝ) ^ 2 by norm_num]
    exact Real.sqrt_sq (by norm_num)
  refine ⟨h2, hden, hprod, ?_, ?_, ?_⟩
  · rw [(h.1 hden).1, hnum, hdenv]; norm_num
  · rw [(h.1 hden).2, hnum, hdenv, hSy, hSx, hN]; norm_num
  · rw [h.2 hprod, hsqrt, hnum]; norm_num

/-! ## C1, C2 — aggregation: mass preservation and bucket partition -/

theorem baseAgg_empty_cat (rows : List Row) (metric sortBy : String) (topN : ℕ) :
    baseAgg rows "" metric topN sortBy = [] := by
  simp [baseAgg]

/-- C1: for every row set, category column, metric, sort mode and
`topN > 0`, the total of the bucket values (the `"Other"` bucket
included) equals the total produced with `topN = 0`. -/
theorem baseAgg_mass (rows : List Row) (cat metric sortBy : String) (topN : ℕ)
    (_htop : 0 < topN) :
    sumValues (baseAgg rows cat metric topN sortBy) =
      sumValues (baseAgg rows cat metric 0 sortBy) := by
  by_cases hcat : cat = ""
  · rw [hcat, baseAgg_empty_cat, baseAgg_empty_cat]
  · simp only [baseAgg, if_neg hcat]
    conv_rhs => rw [if_neg (show ¬ ((0 : ℕ) < 0 ∧ 0 <
      (stableSort (bucketLe sortBy)
        ((groupFold rows cat metric).map (fun p => Bucket.mk p.1 p.2))).length)
      by rintro ⟨h0, -⟩; exact absurd h0 (lt_irrefl 0))]
    by_cases hc : 0 < topN ∧ topN <
        (stableSort (bucketLe sortBy)
          ((groupFold rows cat metric).map (fun p => Bucket.mk p.1 p.2))).length
    · rw [if_pos hc]
      rw [sumValues, sumValues, List.map_append, List.sum_append]
      simp only [List.map_cons, List.map_nil, List.sum_cons, List.sum_nil]
      rw [List.map_take, List.map_drop, add_zero]
      exact List.sum_take_add_sum_drop _ _
    · rw [if_neg hc]

/-- C1 witness: with `topN = 2` over categories A×10, B×8, C×5, D×1 the
collapsed result is `[A 10, B 8, Other 6]` and both totals agree. -/
theorem baseAgg_mass_witness :
    0 < 2 ∧
    sumValues (baseAgg rowsTopN "c" "count" 2 "value") =
      sumValues (baseAgg rowsTopN "c" "count" 0 "value") ∧
    baseAgg rowsTopN "c" "count" 2 "value" =
      [⟨"A", 10⟩, ⟨"B", 8⟩, ⟨"Other", 6⟩] := by
  refine ⟨by decide, baseAgg_mass rowsTopN "c" "count" "value" 2 (by decide), ?_⟩
  simp [baseAgg, groupFold, upsert, contrib, safeCat, getCell, jsToString, toNum,
    jsToNumber, JsNum.isFinite, JsNum.toQ, stableSort, List.insertionSort,
    List.orderedInsert, bucketLe, rowsTopN, List.replicate]
  all_goals norm_num

theorem upsert_keys (m : List (String × ℚ)) (k : String) (v : ℚ) :
    (upsert m k v).map Prod.fst =
      if k ∈ m.map Prod.fst then m.map Prod.fst else m.map Prod.fst ++ [k] := by
  induction m with
  | nil => simp [upsert]
  | cons p t ih =>
    by_cases hp : p.1 = k
    · simp only [upsert, if_pos hp, List.map_cons]
      rw [if_pos (by rw [hp]; exact List.mem_cons_self _ _)]
    · simp only [upsert, if_neg hp, List.map_cons, ih]
      by_cases hk : k ∈ t.map Prod.fst
      · rw [if_pos hk, if_pos (List.mem_cons_of_mem _ hk)]
      · rw [if_neg hk,
          if_neg (by
            intro hc
            rcases List.mem_cons.mp hc with h | h
            · exact hp h.symm
            · exact hk h)]
        simp

theorem upsert_keys_nodup {m : List (String × ℚ)}
    (h : (m.map Prod.fst).Nodup) (k : String) (v : ℚ) :
    ((upsert m k v).map Prod.fst).Nodup := by
  rw [upsert_keys]
  by_cases hk : k ∈ m.map Prod.fst
  · rw [if_pos hk]; exact h
  · rw [if_neg hk]
    rw [List.nodup_append]
    refine ⟨h, List.nodup_singleton _, ?_⟩
    intro a ha hak
    rcases List.mem_singleton.mp hak with rfl
    exact hk ha

theorem mem_upsert_keys (m : List (String × ℚ)) (k : String) (v : ℚ) :
    k ∈ (upsert m k v).map Prod.fst := by
  rw [upsert_keys]
  by_cases hk : k ∈ m.map Prod.fst
  · rw [if_pos hk]; exact hk
  · rw [if_neg hk]; exact List.mem_append_right _ (List.mem_singleton.mpr rfl)

theorem mem_upsert_keys_of_mem {m : List (String × ℚ)} {j : String}
    (hj : j ∈ m.map Prod.fst) (k : String) (v : ℚ) :
    j ∈ (upsert m k v).map Prod.fst := by
  rw [upsert_keys]
  by_cases hk : k ∈ m.map Prod.fst
  · rw [if_pos hk]; exact hj
  · rw [if_neg hk]; exact List.mem_append_left _ hj

theorem upsert_keys_sub {m : List (String × ℚ)} {j k : String} {v : ℚ}
    (hj : j ∈ (upsert m k v).map Prod.fst) :
    j ∈ m.map Prod.fst ∨ j = k := by
  rw [upsert_keys] at hj
  by_cases hk : k ∈ m.map Prod.fst
  · rw [if_pos hk] at hj; exact Or.inl hj
  · rw [if_neg hk] at hj
    rcases List.mem_append.mp hj with h | h
    · exact Or.inl h
    · exact Or.inr (List.mem_singleton.mp h)

theorem groupFold_aux_nodup (cat metric : String) (rows : List Row) :
    ∀ m : List (String × ℚ), (m.map Prod.fst).Nodup →
    ((rows.foldl
      (fun m r => upsert m (safeCat (getCell r cat)) (contrib metric r))
      m).map Prod.fst).Nodup := by
  induction rows with
  | nil => intro m h; exact h
  | cons r t ih =>
    intro m h
    exact ih _ (upsert_keys_nodup h _ _)

theorem groupFold_aux_mono (cat metric : String) (rows : List Row) :
    ∀ (m : List (String × ℚ)) (j : String), j ∈ m.map Prod.fst →
    j ∈ ((rows.foldl
      (fun m r => upsert m (safeCat (getCell r cat)) (contrib metric r))
      m).map Prod.fst) := by
  induction rows with
  | nil => intro m j h; exact h
  | cons r t ih =>
    intro m j h
    exact ih _ _ (mem_upsert_keys_of_mem h _ _)

theorem groupFold_aux_mem (cat metric : String) (rows : List Row) :
    ∀ (m : List (String × ℚ)) (r : Row), r ∈ rows →
    safeCat (getCell r cat) ∈ ((rows.foldl
      (fun m r => upsert m (safeCat (getCell r cat)) (contrib metric r))
      m).map Prod.fst) := by
  induction rows with
  | nil => intro m r h; cases h
  | cons a t ih =>
    intro m r hr
    rcases List.mem_cons.mp hr with rfl | hr
    · exact groupFold_aux_mono cat metric t _ _ (mem_upsert_keys _ _ _)
    · exact ih _ r hr

theorem groupFold_aux_sub (cat metric : String) (rows : List Row) :
    ∀ (m : List (String × ℚ)) (j : String),
    j ∈ ((rows.foldl
      (fun m r => upsert m (safeCat (getCell r cat)) (contrib metric r))
      m).map Prod.fst) →
    j ∈ m.map Prod.fst ∨ ∃ r ∈ rows, j = safeCat (getCell r cat) := by
  induction rows with
  | nil => intro m j h; exact Or.inl h
  | cons a t ih =>
    intro m j h
    rcases ih _ _ h with h2 | ⟨r, hr, hj⟩
    · rcases upsert_keys_sub h2 with h3 | h3
      · exact Or.inl h3
      · exact Or.inr ⟨a, List.mem_cons_self _ _, h3⟩
    · exact Or.inr ⟨r, List.mem_cons_of_mem _ hr, hj⟩

theorem bucket_existsUnique {result : List Bucket}
    (hnd : (namesOf result).Nodup) {k : String}
    (hk : k ∈ namesOf result) :
    ∃! b, b ∈ result ∧ accounts result k b := by
  rcases List.mem_map.mp hk with ⟨b, hb, hbn⟩
  refine ⟨b, ⟨hb, Or.inl hbn⟩, ?_⟩
  rintro b2 ⟨hb2, hacc | ⟨hnot, -⟩⟩
  · exact List.inj_on_of_nodup_map hnd hb2 hb (by rw [hacc, hbn])
  · exact absurd hk hnot

theorem bucket_existsUnique_other {result : List Bucket}
    (hnd : (namesOf result).Nodup) {k : String}
    (hk : k ∉ namesOf result) (hother : "Other" ∈ namesOf result) :
    ∃! b, b ∈ result ∧ accounts result k b := by
  rcases List.mem_map.mp hother with ⟨b, hb, hbn⟩
  refine ⟨b, ⟨hb, Or.inr ⟨hk, hbn⟩⟩, ?_⟩
  rintro b2 ⟨hb2, hacc | ⟨-, hbn2⟩⟩
  · exact absurd (hacc ▸ List.mem_map_of_mem Bucket.name hb2) hk
  · exact List.inj_on_of_nodup_map hnd hb2 hb (hbn2.trans hbn.symm)

/-- C2 counterexample: with category values `Other, Other, A, A, B` and
`topN = 2`, the result's bucket names are `["Other", "A", "Other"]` — a
retained category literally named `"Other"` collides with the synthetic
collapse bucket, so names are not pairwise distinct. -/
theorem baseAgg_other_clash_cex :
    namesOf (baseAgg rowsOtherClash "c" "count" 2 "value") =
      ["Other", "A", "Other"] ∧
    ¬ ((namesOf (baseAgg rowsOtherClash "c" "count" 2 "value")).Nodup ∧
       ∀ r ∈ rowsOtherClash,
         ∃! b, b ∈ baseAgg rowsOtherClash "c" "count" 2 "value" ∧
           accounts (baseAgg rowsOtherClash "c" "count" 2 "value")
             (safeCat (getCell r "c")) b) := by
  have hnames : namesOf (baseAgg rowsOtherClash "c" "count" 2 "value") =
      ["Other", "A", "Other"] := by
    simp [baseAgg, groupFold, upsert, contrib, safeCat, getCell, jsToString,
      toNum, jsToNumber, JsNum.isFinite, JsNum.toQ, stableSort,
      List.insertionSort, List.orderedInsert, bucketLe, rowsOtherClash, namesOf]
  refine ⟨hnames, fun h => ?_⟩
  have h1 := h.1
  rw [hnames] at h1
  simp at h1

/-- C2 (amended): provided no row's coerced category string is the
literal `"Other"`, bucket names are pairwise distinct and every row's
coerced category is accounted for in exactly one output bucket — the
bucket bearing its name, or the synthetic `"Other"` bucket when its own
bucket was collapsed.  (When a category is literally named `"Other"`
and the collapse fires, the synthetic bucket duplicates that name.) -/
theorem baseAgg_partition (rows : List Row) (cat metric sortBy : String)
    (topN : ℕ) (hcat : cat ≠ "")
    (hO : ∀ r ∈ rows, safeCat (getCell r cat) ≠ "Other") :
    (namesOf (baseAgg rows cat metric topN sortBy)).Nodup ∧
    ∀ r ∈ rows, ∃! b, b ∈ baseAgg rows cat metric topN sortBy ∧
      accounts (baseAgg rows cat metric topN sortBy)
        (safeCat (getCell r cat)) b := by
  set gf := groupFold rows cat metric with hgf
  set entries := gf.map (fun p => Bucket.mk p.1 p.2) with hent
  set sorted := stableSort (bucketLe sortBy) entries with hsorted
  have hperm : sorted.Perm entries := List.perm_insertionSort _ _
  have hnp : (namesOf sorted).Perm (namesOf entries) := hperm.map _
  have hkeys : namesOf entries = gf.map Prod.fst := by
    rw [hent, namesOf, List.map_map]
    rfl
  have hndkeys : (gf.map Prod.fst).Nodup := by
    rw [hgf, groupFold]
    exact groupFold_aux_nodup cat metric rows [] (by simp)
  have hnd_sorted : (namesOf sorted).Nodup :=
    hnp.nodup_iff.mpr (by rw [hkeys]; exact hndkeys)
  have hmemkey : ∀ r ∈ rows, safeCat (getCell r cat) ∈ namesOf sorted := by
    intro r hr
    refine hnp.mem_iff.mpr ?_
    rw [hkeys, hgf, groupFold]
    exact groupFold_aux_mem cat metric rows [] r hr
  have hOther : "Other" ∉ namesOf sorted := by
    intro hmem
    have h2 := hnp.mem_iff.mp hmem
    rw [hkeys, hgf, groupFold] at h2
    rcases groupFold_aux_sub cat metric rows [] _ h2 with h3 | ⟨r, hr, hj⟩
    · simp at h3
    · exact hO r hr hj.symm
  have hagg : baseAgg rows cat metric topN sortBy =
      (if 0 < topN ∧ topN < sorted.length then
        sorted.take topN ++
          [⟨"Other", ((sorted.drop topN).map Bucket.value).sum⟩]
      else sorted) := by
    simp only [baseAgg, hsorted, hent, hgf]
    rw [if_neg hcat]
  by_cases hc : 0 < topN ∧ topN < sorted.length
  · rw [hagg, if_pos hc]
    have hnames : namesOf (sorted.take topN ++
        [⟨"Other", ((sorted.drop topN).map Bucket.value).sum⟩]) =
        (namesOf sorted).take topN ++ ["Other"] := by
      simp only [namesOf, List.map_append, List.map_take, List.map_cons,
        List.map_nil]
    have hndtake : ((namesOf sorted).take topN).Nodup :=
      (List.take_sublist _ _).nodup hnd_sorted
    have hOtake : "Other" ∉ (namesOf sorted).take topN := by
      intro hmem
      exact hOther (List.take_subset _ _ hmem)
    have hnd_res : (namesOf (sorted.take topN ++
        [⟨"Other", ((sorted.drop topN).map Bucket.value).sum⟩])).Nodup := by
      rw [hnames, List.nodup_append]
      refine ⟨hndtake, List.nodup_singleton _, ?_⟩
      intro a ha hak
      rcases List.mem_singleton.mp hak with rfl
      exact hOtake ha
    refine ⟨hnd_res, ?_⟩
    intro r hr
    have hks := hmemkey r hr
    by_cases hk : safeCat (getCell r cat) ∈ (namesOf sorted).take topN
    · exact bucket_existsUnique hnd_res
        (by rw [hnames]; exact List.mem_append_left _ hk)
    · refine bucket_existsUnique_other hnd_res ?_
        (by rw [hnames]; exact List.mem_append_right _ (List.mem_singleton.mpr rfl))
      rw [hnames]
      intro hmem
      rcases List.mem_append.mp hmem with h3 | h3
      · exact hk h3
      · rcases List.mem_singleton.mp h3 with heq
        exact hO r hr heq
  · rw [hagg, if_neg hc]
    exact ⟨hnd_sorted, fun r hr => bucket_existsUnique hnd_sorted (hmemkey r hr)⟩

/-- C2 witness: the amended partition applied to the A/B/C/D rows with
`topN = 2`. -/
theorem baseAgg_partition_witness :
    ("c" : String) ≠ "" ∧
    (∀ r ∈ rowsTopN, safeCat (getCell r "c") ≠ "Other") ∧
    (namesOf (baseAgg rowsTopN "c" "count" 2 "value")).Nodup ∧
    ∀ r ∈ rowsTopN, ∃! b, b ∈ baseAgg rowsTopN "c" "count" 2 "value" ∧
      accounts (baseAgg rowsTopN "c" "count" 2 "value")
        (safeCat (getCell r "c")) b := by
  have h := baseAgg_partition rowsTopN "c" "count" "value" 2 (by decide) (by decide)
  exact ⟨by decide, by decide, h.1, h.2⟩

/-! ## C7 — CSV record termination -/

theorem foldl_append_join (l : List String) :
    ∀ init : String, l.foldl (fun a b => a ++ b) init = init ++ String.join l := by
  induction l with
  | nil =>
    intro init
    show init = init ++ String.join []
    rw [show String.join ([] : List String) = "" from rfl, String.append_empty]
  | cons a t ih =>
    intro init
    rw [List.foldl_cons, ih]
    rw [show String.join (a :: t) = a ++ String.join t from by
      show (a :: t).foldl (fun a b => a ++ b) "" = a ++ String.join t
      rw [List.foldl_cons, ih, String.empty_append]]
    rw [String.append_assoc]

theorem join_cons (a : String) (l : List String) :
    String.join (a :: l) = a ++ String.join l := by
  show (a :: l).foldl (fun a b => a ++ b) "" = a ++ String.join l
  rw [List.foldl_cons, foldl_append_join, String.empty_append]

theorem length_newlineTerminated (recs : List String) :
    (newlineTerminated recs).length = (recs.map String.length).sum + recs.length := by
  induction recs with
  | nil => rfl
  | cons a t ih =>
    rw [newlineTerminated, List.map_cons, join_cons, String.length_append,
      String.length_append]
    rw [newlineTerminated] at ih
    rw [ih]
    simp only [List.map_cons, List.sum_cons, List.length_cons]
    rw [show ("\n" : String).length = 1 from rfl]
    omega

theorem intercalate_go_length (s : String) (as : List String) :
    ∀ acc : String, (String.intercalate.go acc s as).length =
      acc.length + (as.map String.length).sum + s.length * as.length := by
  induction as with
  | nil => intro acc; simp [String.intercalate.go]
  | cons a t ih =>
    intro acc
    rw [String.intercalate.go, ih]
    simp only [String.length_append, List.map_cons, List.sum_cons,
      List.length_cons]
    ring

theorem length_intercalate_newline (recs : List String) (h : recs ≠ []) :
    (String.intercalate "\n" recs).length =
      (recs.map String.length).sum + (recs.length - 1) := by
  cases recs with
  | nil => exact absurd rfl h
  | cons a t =>
    show (String.intercalate.go a "\n" t).length = _
    rw [intercalate_go_length]
    simp only [List.map_cons, List.sum_cons, List.length_cons]
    rw [show ("\n" : String).length = 1 from rfl]
    omega

theorem foldl_csv_lines {α : Type} (f : α → String) (l : List α) :
    ∀ init : String,
    l.foldl (fun csv r => csv ++ f r ++ "\n") init =
      init ++ String.join ((l.map f).map (fun s => s ++ "\n")) := by
  induction l with
  | nil =>
    intro init
    show init = init ++ String.join []
    rw [show String.join ([] : List String) = "" from rfl, String.append_empty]
  | cons a t ih =>
    intro init
    rw [List.foldl_cons, ih]
    simp only [List.map_cons, join_cons]
    simp [String.append_assoc]

/-- C7 counterexample: on one performance row the series exporter emits
`"t,v\n2020-01-01,1"` — the last record is not newline-terminated, so
the export is not the output of a line-per-record writer. -/
theorem exportPerformance_no_trailing_newline_cex :
    exportPerformance rowsPerfOne "t" ["v"] 0 "none" 500 =
      some "t,v\n2020-01-01,1" ∧
    newlineTerminated (performanceRecords rowsPerfOne "t" ["v"] 0 "none" 500) =
      "t,v\n2020-01-01,1\n" ∧
    exportPerformance rowsPerfOne "t" ["v"] 0 "none" 500 ≠
      some (newlineTerminated
        (performanceRecords rowsPerfOne "t" ["v"] 0 "none" 500)) := by
  refine ⟨by decide, by decide, ?_⟩
  intro h
  rw [show exportPerformance rowsPerfOne "t" ["v"] 0 "none" 500 =
      some "t,v\n2020-01-01,1" from by decide,
    show newlineTerminated (performanceRecords rowsPerfOne "t" ["v"] 0 "none" 500) =
      "t,v\n2020-01-01,1\n" from by decide] at h
  exact absurd (Option.some.inj h) (by decide)

/-- C7 (amended): the treatment (aggregation) exporter terminates every
record, the header included, with a newline; the performance (series)
and factors (points) exporters join their records with single newlines
and emit no trailing newline — and for a non-empty record list those
two forms always differ. -/
theorem exportCSV_structure :
    (∀ (rows : List Row) (cat metric groupBy : String) (topN : ℕ) (sortBy : String),
      cat ≠ "" →
      exportTreatment rows cat metric groupBy topN sortBy =
        some (newlineTerminated (treatmentRecords rows cat metric groupBy topN sortBy))) ∧
    (∀ (rows : List Row) (x : String) (ys : List String) (smooth : ℕ)
        (normalize : String) (cap : ℕ),
      processed rows x ys smooth normalize cap ≠ [] →
      exportPerformance rows x ys smooth normalize cap =
        some (String.intercalate "\n"
          (performanceRecords rows x ys smooth normalize cap))) ∧
    (∀ (rows : List Row) (x y zcol colorBy xMinS xMaxS yMinS yMaxS : String),
      exportFactors rows x y zcol colorBy xMinS xMaxS yMinS yMaxS =
        String.intercalate "\n"
          (factorsRecords rows x y zcol colorBy xMinS xMaxS yMinS yMaxS)) ∧
    (∀ recs : List String, recs ≠ [] →
      String.intercalate "\n" recs ≠ newlineTerminated recs) := by
  refine ⟨?_, ?_, ?_, ?_⟩
  · intro rows cat metric groupBy topN sortBy hcat
    by_cases hgb : groupBy = ""
    · simp only [exportTreatment, if_neg hcat, if_pos hgb, treatmentRecords,
        hgb, if_pos (rfl : ("" : String) = ""), if_true]
      rw [foldl_csv_lines]
      rw [newlineTerminated, List.map_cons, join_cons]
    · simp only [exportTreatment, if_neg hcat, if_neg hgb, treatmentRecords]
      rw [foldl_csv_lines]
      rw [newlineTerminated, List.map_cons, join_cons]
  · intro rows x ys smooth normalize cap h
    rw [exportPerformance, if_neg (by simpa using h)]
  · intro rows x y zcol colorBy xMinS xMaxS yMinS yMaxS
    rfl
  · intro recs h heq
    have hl := congrArg String.length heq
    rw [length_intercalate_newline recs h, length_newlineTerminated] at hl
    have h0 : recs.length ≠ 0 := by simpa using h
    omega

/-- C7 witness: the amended statement applied to concrete treatment and
performance exports; the single-row performance export is
`"t,v\n2020-01-01,1"`, with no trailing newline. -/
theorem exportCSV_structure_witness :
    ("c" : String) ≠ "" ∧
    exportTreatment rowsTopN "c" "count" "" 2 "value" =
      some (newlineTerminated (treatmentRecords rowsTopN "c" "count" "" 2 "value")) ∧
    processed rowsPerfOne "t" ["v"] 0 "none" 500 ≠ [] ∧
    exportPerformance rowsPerfOne "t" ["v"] 0 "none" 500 =
      some (String.intercalate "\n"
        (performanceRecords rowsPerfOne "t" ["v"] 0 "none" 500)) ∧
    String.intercalate "\n" (performanceRecords rowsPerfOne "t" ["v"] 0 "none" 500) =
      "t,v\n2020-01-01,1" :=
  ⟨by decide,
   exportCSV_structure.1 rowsTopN "c" "count" "" 2 "value" (by decide),
   by decide,
   exportCSV_structure.2.1 rowsPerfOne "t" ["v"] 0 "none" 500 (by decide),
   by decide⟩

end Suchet
